import Mathlib

/-!
# docstate — shallow embedding and verification

A shallow embedding in Lean 4 of the document-pipeline engine of the
`docstate` repository, together with theorems settling the frozen claims
about its specification.  The primary implementation is the asynchronous
engine in `doc_new/` (`doc_new/document.py`, `doc_new/docstate.py`); the
older synchronous engine in `docstate/` is embedded where a claim cites it.

Modelling conventions:
* Python `str` is `String`; optional fields are `Option`.
* Python `dict` metadata is an insertion-ordered association list with
  unique keys; `d[k] = v` is `Metadata.setKey` (replace in place when the
  key is present, append otherwise).
* The database is a list of rows (`Store`); a document's children are
  derived from the `parent_id` pointers, exactly as in the SQLAlchemy
  relationship.
* `uuid4()` is an injected supply `uuid : Nat → String` threaded with a
  counter, and `datetime.now().isoformat()` an injected string `now`.
* A processor (`Transition.process_func`) returns `ProcResult`: one
  document, a list of documents, or a raised exception (`PyExc` records
  `str(e)` and `type(e).__name__`).
-/

/-- A JSON-like metadata value (Python `Any` restricted to scalars, which is
all the engine itself ever stores). -/
inductive JValue where
  | str : String → JValue
  | num : Int → JValue
  | bool : Bool → JValue
  | null : JValue
  deriving Repr, DecidableEq

/-- Python `Dict[str, Any]`: an insertion-ordered association list whose keys
are unique (the store never manufactures duplicates). -/
abbrev Metadata := List (String × JValue)

/-- Dictionary lookup `m.get(k)`. -/
def Metadata.getVal (m : Metadata) (k : String) : Option JValue :=
  (m.find? (fun p => p.1 == k)).map Prod.snd

/-- Key membership `k in m`. -/
def Metadata.hasKey (m : Metadata) (k : String) : Bool :=
  m.any (fun p => p.1 == k)

/-- Dictionary assignment `m[k] = v`: replace in place when the key exists,
append at the end otherwise. -/
def Metadata.setKey (m : Metadata) (k : String) (v : JValue) : Metadata :=
  if m.any (fun p => p.1 == k) then
    m.map (fun p => if p.1 == k then (k, v) else p)
  else m ++ [(k, v)]

/-- `for key, value in kwargs.items(): m[key] = value`. -/
def Metadata.applyAll (m : Metadata) (kwargs : List (String × JValue)) : Metadata :=
  kwargs.foldl (fun acc kv => acc.setKey kv.1 kv.2) m

/-- The last binding of `k` in a kwargs list (Python kwargs have unique keys,
so for them this is the only binding). -/
def lookupLast : List (String × JValue) → String → Option JValue
  | [], _ => none
  | kv :: rest, k =>
    match lookupLast rest k with
    | some v => some v
    | none => if kv.1 == k then some kv.2 else none

/-- `doc_new/document.py` `Document`: the in-memory pydantic value.
`children` is the snapshot list of child ids the store populates. -/
structure Document where
  id : String
  content : Option String
  media_type : String
  url : Option String
  state : String
  parent_id : Option String
  children : List String
  metadata : Metadata
  deriving Repr, DecidableEq

/-- `doc_new/database.py` `DocumentModel`: one persisted row.  The children
relationship is derived from `parent_id`, not stored. -/
structure DocumentRow where
  id : String
  state : String
  content : Option String
  media_type : String
  url : Option String
  parent_id : Option String
  cmetadata : Metadata
  deriving Repr, DecidableEq

/-- The database: the list of persisted rows, in insertion order. -/
abbrev Store := List DocumentRow

/-- `select(DocumentModel).filter_by(id=id)` followed by `.first()`. -/
def findRow (store : Store) (id : String) : Option DocumentRow :=
  store.find? (fun r => r.id == id)

/-- The ids of the rows whose `parent_id` is `pid` (the SQLAlchemy
`children` relationship). -/
def childIds (store : Store) (pid : String) : List String :=
  (store.filter (fun r => r.parent_id == some pid)).map (fun r => r.id)

/-- `_convert_model_to_document`: a row together with the ids of its
children, as a `Document` snapshot. -/
def convertModelToDocument (store : Store) (r : DocumentRow) : Document :=
  { id := r.id
    state := r.state
    content := r.content
    media_type := r.media_type
    url := r.url
    parent_id := r.parent_id
    children := childIds store r.id
    metadata := r.cmetadata }

/-- The row persisted for a `Document` (`DocumentModel(id=..., ...,
cmetadata=document.metadata)`). -/
def rowOfDoc (d : Document) : DocumentRow :=
  { id := d.id
    state := d.state
    content := d.content
    media_type := d.media_type
    url := d.url
    parent_id := d.parent_id
    cmetadata := d.metadata }

/-- `docstate/document.py` `Document.add_child`: append one child id unless
already present. -/
def add_child (d : Document) (child_id : String) : Document :=
  if d.children.contains child_id then d
  else { d with children := d.children ++ [child_id] }

/-- `doc_new/document.py` `Document.add_children`: filter the input against
the *pre-existing* children (`current_children = set(self.children)`), then
extend with everything that survived. -/
def add_children (d : Document) (child_ids : List String) : Document :=
  let new_children := child_ids.filter (fun i => !(d.children.contains i))
  { d with children := d.children ++ new_children }

/-- `DocumentState`: a lifecycle state; equality is by name. -/
structure DocumentState where
  name : String
  deriving Repr, DecidableEq

/-- A raised Python exception, as the engine observes it: `str(e)` and
`type(e).__name__`. -/
structure PyExc where
  msg : String
  typeName : String
  deriving Repr, DecidableEq

/-- What awaiting `process_func(doc)` does: return one document, return a
list of documents, or raise. -/
inductive ProcResult where
  | single : Document → ProcResult
  | many : List Document → ProcResult
  | raised : PyExc → ProcResult

/-- `Transition`: an edge of the state graph with its processor.
`func_name` is the processor's `__name__`. -/
structure Transition where
  from_state : DocumentState
  to_state : DocumentState
  process_func : Document → ProcResult
  func_name : String

/-- `DocumentType`: the state machine (states plus transitions). -/
structure DocumentType where
  states : List DocumentState
  transitions : List Transition

/-- `DocumentType.final`: the states with no outgoing transition
(`state not in set(t.from_state for t in transitions)`, membership by
name-equality). -/
def DocumentType.final (dt : DocumentType) : List DocumentState :=
  dt.states.filter (fun s => !(dt.transitions.any (fun t => t.from_state.name == s.name)))

/-- `DocumentType.get_transition(from_state)`: every transition whose
`from_state` equals the given state name. -/
def DocumentType.get_transition (dt : DocumentType) (from_state : String) : List Transition :=
  dt.transitions.filter (fun t => t.from_state.name == from_state)

/-- `AsyncDocStore.final_state_names`: the names of the graph's final
states, with the configured error state appended when it is not already
among them; `[error_state]` alone when no document type is bound. -/
def final_state_names (document_type : Option DocumentType) (error_state : String) :
    List String :=
  match document_type with
  | none => [error_state]
  | some dt =>
    let state_names := dt.final.map DocumentState.name
    if error_state ∈ state_names then state_names else state_names ++ [error_state]

/-- The failure kinds the store surfaces to its caller (both are
`ValueError` in the source, told apart by their message). -/
inductive StoreErr where
  | NotFound
  | Mismatch
  deriving Repr, DecidableEq

/-- The `doc` argument of `update`: a full `Document` or a bare id. -/
inductive UpdateArg where
  | byDoc : Document → UpdateArg
  | byId : String → UpdateArg
  deriving Repr, DecidableEq

/-- `doc_id = doc.id if isinstance(doc, Document) else doc`. -/
def UpdateArg.docId : UpdateArg → String
  | .byDoc d => d.id
  | .byId i => i

/-- Replace the first row carrying `id` (the row `.first()` found). -/
def updateFirstRow (store : Store) (id : String) (f : DocumentRow → DocumentRow) : Store :=
  match store with
  | [] => []
  | r :: rs => if r.id == id then f r :: rs else r :: updateFirstRow rs id f

/-- `AsyncDocStore.update`: merge keyword metadata into the stored
document.  Raising inside the transaction rolls back, so the result pairs
the post-call store with either the returned snapshot or the error:
* no row under `doc_id` → `NotFound`, store unchanged;
* a full `Document` whose `state`, `content` or `media_type` differs from
  the row → `Mismatch`, store unchanged;
* else: overwrite the row's metadata with the per-key merge and return the
  converted updated row. -/
def update (store : Store) (doc : UpdateArg) (kwargs : List (String × JValue)) :
    Store × Except StoreErr Document :=
  let doc_id := doc.docId
  match findRow store doc_id with
  | none => (store, Except.error StoreErr.NotFound)
  | some db_doc =>
    let mismatch : Bool :=
      match doc with
      | .byDoc d =>
          d.state != db_doc.state || d.content != db_doc.content ||
            d.media_type != db_doc.media_type
      | .byId _ => false
    if mismatch then (store, Except.error StoreErr.Mismatch)
    else
      let current_metadata := db_doc.cmetadata
      let merged := current_metadata.applyAll kwargs
      let store' := updateFirstRow store doc_id (fun r => { r with cmetadata := merged })
      (store', Except.ok (convertModelToDocument store' { db_doc with cmetadata := merged }))

/-- `content[i:i+(k+1)]` slices for `i in range(0, len(content), k+1)`, over
the character list (`k + 1` is the chunk size, so the step is positive). -/
def chunksPos (k : Nat) : List Char → List (List Char)
  | [] => []
  | x :: xs => (x :: xs).take (k + 1) :: chunksPos k (xs.drop k)
termination_by l => l.length
decreasing_by simp [List.length_drop]; omega

/-- The chunk list of a string for a given `chunk_size`.  Python's
`range(0, n, 0)` raises, so size `0` is out of the modelled domain and
mapped to `[]`. -/
def chunks (c : String) (chunk_size : Nat) : List String :=
  match chunk_size with
  | 0 => []
  | k + 1 => (chunksPos k c.toList).map (fun l => String.mk l)

/-- `AsyncDocStore.stream_content`: `NotFound` for an absent id; a single
empty chunk when the content is `NULL` or empty (`if not content`);
otherwise the fixed-size slices in order. -/
def stream_content (store : Store) (doc_id : String) (chunk_size : Nat) :
    Except StoreErr (List String) :=
  match findRow store doc_id with
  | none => Except.error StoreErr.NotFound
  | some r =>
    match r.content with
    | none => Except.ok [""]
    | some c => if c = "" then Except.ok [""] else Except.ok (chunks c chunk_size)

/-- The outcome of one executor step: the session's store after the step,
the documents returned, and the advanced uuid counter. -/
structure StepOut where
  store : Store
  results : List Document
  ctr : Nat

/-- The error `Document(...)` the `doc_new` executor constructs in its
except-branch: error state, JSON media type, the failure message as content,
the processed document as parent, and the seven reserved metadata keys.
`errId` is the `uuid4` the pydantic default factory assigns; `now` is
`datetime.now().isoformat()` at the failure. -/
def mkErrorDocument (error_state now errId : String) (doc : Document)
    (transition : Transition) (exc : PyExc) : Document :=
  { id := errId
    content := some exc.msg
    media_type := "application/json"
    url := none
    state := error_state
    parent_id := some doc.id
    children := []
    metadata :=
      [("error", JValue.str exc.msg),
       ("error_type", JValue.str exc.typeName),
       ("transition_from", JValue.str doc.state),
       ("transition_to", JValue.str transition.to_state.name),
       ("original_media_type", JValue.str doc.media_type),
       ("timestamp", JValue.str now),
       ("process_function", JValue.str transition.func_name)] }

/-- `id=result_doc.id if result_doc.id else str(uuid4())`, and the
generated id written back to the result document, for each child in
order. -/
def assignChildIds (uuid : Nat → String) : Nat → List Document → List Document × Nat
  | ctr, [] => ([], ctr)
  | ctr, d :: ds =>
    if d.id = "" then
      let d' := { d with id := uuid ctr }
      let (ds', ctr') := assignChildIds uuid (ctr + 1) ds
      (d' :: ds', ctr')
    else
      let (ds', ctr') := assignChildIds uuid ctr ds
      (d :: ds', ctr')

/-- Success path of the executor, after the processor's output has been
normalised to the list `results`: set every child's `parent_id` to the
processed document, assign missing ids, persist every child row in the
session.  (The source then also re-reads the parent and extends its
`children` relationship with rows whose `parent_id` it has already set,
which changes nothing in a parent-pointer store.) -/
def persistChildren (uuid : Nat → String) (store : Store) (ctr : Nat) (doc : Document)
    (results : List Document) : StepOut :=
  let linked := results.map (fun d => { d with parent_id := some doc.id })
  let (assigned, ctr') := assignChildIds uuid ctr linked
  ⟨store ++ assigned.map rowOfDoc, assigned, ctr'⟩

/-- `doc_new/docstate.py` `_process_single_document`: one advancement step
for one document.
* no transition from `doc.state`: nothing persisted, empty result;
* otherwise the first transition runs; a normal processor return is
  normalised to a list and persisted via `persistChildren`;
* a raised exception is caught: one error document is built
  (`mkErrorDocument`), persisted, and returned as a one-element list — the
  exception never reaches the caller. -/
def processSingleDocument (dt : DocumentType) (error_state now : String)
    (uuid : Nat → String) (store : Store) (ctr : Nat) (doc : Document) : StepOut :=
  match dt.get_transition doc.state with
  | [] => ⟨store, [], ctr⟩
  | transition :: _ =>
    match transition.process_func doc with
    | ProcResult.single d => persistChildren uuid store ctr doc [d]
    | ProcResult.many ds => persistChildren uuid store ctr doc ds
    | ProcResult.raised exc =>
      let error_doc := mkErrorDocument error_state now (uuid ctr) doc transition exc
      ⟨store ++ [rowOfDoc error_doc], [error_doc], ctr + 1⟩

/-- `AsyncDocStore.next` on a list of documents: every document is advanced
one step inside the shared session and the per-document results are
concatenated.  (The cooperative `gather_with_concurrency` tasks are
linearised in input order.) -/
def nextStep (dt : DocumentType) (error_state now : String) (uuid : Nat → String)
    (store : Store) (ctr : Nat) (docs : List Document) : StepOut :=
  docs.foldl
    (fun acc d =>
      let o := processSingleDocument dt error_state now uuid acc.store acc.ctr d
      ⟨o.store, acc.results ++ o.results, o.ctr⟩)
    ⟨store, [], ctr⟩

/-- `existing_doc = await self.get(id=doc.id)` is truthy: a row under a
truthy id, or — for a falsy id, where `get` returns the all-documents
list — a non-empty store. -/
def existsTruthy (store : Store) (doc : Document) : Bool :=
  if doc.id != "" then (findRow store doc.id).isSome else !store.isEmpty

/-- The per-input pre-insert of `finish`: add the document unless the store
already answers for its id. -/
def ensureAdded (store : Store) (doc : Document) : Store :=
  if existsTruthy store doc then store else store ++ [rowOfDoc doc]

/-- The `while documents_to_process:` loop of `finish`, with explicit fuel
(`none` = the modelling budget ran out; the Python loop can diverge on a
cyclic graph).  Each pass drops the documents already in a final state,
stops when nothing is left or a `next` pass produced nothing, and otherwise
continues on the produced documents. -/
def finishLoop (dt : DocumentType) (error_state now : String) (uuid : Nat → String) :
    Nat → Store → Nat → List Document → Option (Store × Nat)
  | 0, _, _, _ => none
  | fuel + 1, store, ctr, working =>
    if working.isEmpty then some (store, ctr)
    else
      let names := final_state_names (some dt) error_state
      let working' := working.filter (fun d => !(names.contains d.state))
      if working'.isEmpty then some (store, ctr)
      else
        let o := nextStep dt error_state now uuid store ctr working'
        if o.results.isEmpty then some (o.store, o.ctr)
        else finishLoop dt error_state now uuid fuel o.store o.ctr o.results

/-- `AsyncDocStore.finish`: pre-insert the inputs, drive the loop, then
gather — one query for every row whose state is among
`final_state_names`, each converted with its children. -/
def finish (dt : DocumentType) (error_state now : String) (uuid : Nat → String)
    (fuel : Nat) (store : Store) (docs : List Document) :
    Option (Store × List Document) :=
  let store1 := docs.foldl ensureAdded store
  match finishLoop dt error_state now uuid fuel store1 0 docs with
  | none => none
  | some (s', _) =>
    let names := final_state_names (some dt) error_state
    some (s', (s'.filter (fun r => names.contains r.state)).map (convertModelToDocument s'))

/-- The result shape of `AsyncDocStore.get`: one optional document (id
branch) or a list (all/state branch). -/
inductive GetResult where
  | one : Option Document → GetResult
  | many : List Document → GetResult
  deriving Repr, DecidableEq

/-- The id branch of `AsyncDocStore.get`: primary-key lookup converted with
children.  The branch accepts `include_content` but (in the source) never
reads it. -/
def get_byId (store : Store) (id : String) (include_content : Bool) : Option Document :=
  (findRow store id).map (convertModelToDocument store)

/-- The no-id branch of `AsyncDocStore.get` under the default arguments
(`state=None`, `include_content=True`): every row, each converted with its
children. -/
def get_all (store : Store) : List Document :=
  store.map (convertModelToDocument store)

/-- `AsyncDocStore.get` under default keyword arguments, dispatching on the
truthiness of `id`: a truthy id takes the single-document branch, `None`
or the empty string the return-all branch. -/
def get (store : Store) (id : Option String) : GetResult :=
  match id with
  | some i =>
    if i ≠ "" then GetResult.one (get_byId store i true)
    else GetResult.many (get_all store)
  | none => GetResult.many (get_all store)

/-- `docstate/docstate.py` `_process_single_document`, except-branch: the
metadata of the error document the legacy engine builds.  Its `timestamp`
entry holds `transition.process_func.__name__`, and there is no
`process_function` entry. -/
def legacyErrorMetadata (doc : Document) (transition : Transition) (exc : PyExc) : Metadata :=
  [("error", JValue.str exc.msg),
   ("error_type", JValue.str exc.typeName),
   ("transition_from", JValue.str doc.state),
   ("transition_to", JValue.str transition.to_state.name),
   ("original_media_type", JValue.str doc.media_type),
   ("timestamp", JValue.str transition.func_name)]

/-- The seven reserved metadata keys of an error document (§6 of the
spec). -/
def reservedErrorKeys : List String :=
  ["error", "error_type", "transition_from", "transition_to",
   "original_media_type", "timestamp", "process_function"]

/-- Modelled from the spec for the refinement side of claim C3: membership
in the terminal set, "the set of graph states with no outgoing transition
united with the configured error-state name". -/
def isTerminalSpec (dt : DocumentType) (error_state name : String) : Bool :=
  (dt.states.any (fun s => s.name == name) &&
     dt.transitions.all (fun t => t.from_state.name != name)) || name == error_state

/-! ## Concrete fixtures (the spec's seed scenarios, used by the witnesses) -/

/-- An inexhaustible uuid4 supply. -/
def uuidDemo : Nat → String := fun n => "uuid-" ++ toString n

/-- The child document the scenario-A processor returns. -/
def docChunkOK : Document :=
  { id := "c1", content := some "OK", media_type := "text/plain", url := none,
    state := "download", parent_id := none, children := [], metadata := [] }

/-- Scenario-A processor: one `download` document with content `"OK"`. -/
def procLinkDownload : Document → ProcResult := fun _ => ProcResult.single docChunkOK

/-- The `link → download` transition of scenario A. -/
def trDemo : Transition :=
  { from_state := ⟨"link"⟩, to_state := ⟨"download"⟩,
    process_func := procLinkDownload, func_name := "download_processor" }

/-- Scenario-A document type: states `link`, `download`; one transition. -/
def dtDemo : DocumentType :=
  { states := [⟨"link"⟩, ⟨"download"⟩], transitions := [trDemo] }

/-- Scenario-C processor: raises `"boom"`. -/
def procBoom : Document → ProcResult := fun _ => ProcResult.raised ⟨"boom", "ValueError"⟩

/-- The `link → download` transition whose processor raises. -/
def trBoom : Transition :=
  { from_state := ⟨"link"⟩, to_state := ⟨"download"⟩,
    process_func := procBoom, func_name := "boom_processor" }

/-- Scenario-C document type. -/
def dtBoom : DocumentType :=
  { states := [⟨"link"⟩, ⟨"download"⟩], transitions := [trBoom] }

/-- An input document in the entry state `link`. -/
def docLink : Document :=
  { id := "d1", content := none, media_type := "text/plain", url := none,
    state := "link", parent_id := none, children := [], metadata := [] }

/-- A document already in the terminal state `download`. -/
def docDownload : Document :=
  { id := "d2", content := some "abc", media_type := "text/plain", url := none,
    state := "download", parent_id := none, children := [], metadata := [] }

/-- A parent document with no children yet. -/
def doc9 : Document :=
  { id := "p1", content := none, media_type := "text/plain", url := none,
    state := "raw", parent_id := none, children := [], metadata := [] }

/-- A stored row with content `"abc"`. -/
def rowAbc : DocumentRow :=
  { id := "d1", state := "download", content := some "abc", media_type := "text/plain",
    url := none, parent_id := none, cmetadata := [] }

/-- A one-row store whose document has content `"abc"`. -/
def storeAbc : Store := [rowAbc]

/-- A stored row with metadata `{a: "1"}`. -/
def rowMeta : DocumentRow :=
  { id := "d1", state := "link", content := some "body", media_type := "text/plain",
    url := none, parent_id := none, cmetadata := [("a", JValue.str "1")] }

/-- A one-row store for the `update` witness. -/
def storeMeta : Store := [rowMeta]

/-- A stored row with content `"abcde"` for the streaming witness. -/
def rowStream : DocumentRow :=
  { id := "s1", state := "download", content := some "abcde", media_type := "text/plain",
    url := none, parent_id := none, cmetadata := [] }

/-- A one-row store for the streaming witness. -/
def storeStream : Store := [rowStream]

/-- The store scenario A's `finish` run ends with: the inserted parent and
its `download` child. -/
def demoFinishStore : Store :=
  [{ id := "d1", state := "link", content := none, media_type := "text/plain",
     url := none, parent_id := none, cmetadata := [] },
   { id := "c1", state := "download", content := some "OK", media_type := "text/plain",
     url := none, parent_id := some "d1", cmetadata := [] }]

/-- The list scenario A's `finish` run returns: the terminal `download`
document. -/
def demoFinishResult : List Document :=
  [{ id := "c1", content := some "OK", media_type := "text/plain", url := none,
     state := "download", parent_id := some "d1", children := [], metadata := [] }]

/-! ## Dictionary lemmas -/

/-- When some key of `m` matches `k`, the in-place replacement puts `(k, v)`
where the first match was. -/
theorem find?_map_setKey (m : Metadata) (k : String) (v : JValue)
    (h : m.any (fun p => p.1 == k) = true) :
    (m.map (fun p => if p.1 == k then (k, v) else p)).find? (fun p => p.1 == k) =
      some (k, v) := by
  induction m with
  | nil => simp at h
  | cons p rest ih =>
    by_cases hp : (p.1 == k) = true
    · simp [List.find?, hp]
    · have hp' : (p.1 == k) = false := by simpa using hp
      have ha : rest.any (fun q => q.1 == k) = true := by simpa [hp'] using h
      simpa [List.find?, hp'] using ih ha

/-- When no key of `m` matches `k`, lookup in `m ++ [(k, v)]` finds the
appended pair. -/
theorem find?_append_setKey (m : Metadata) (k : String) (v : JValue)
    (h : m.any (fun p => p.1 == k) = false) :
    (m ++ [(k, v)]).find? (fun p => p.1 == k) = some (k, v) := by
  induction m with
  | nil => simp [List.find?]
  | cons p rest ih =>
    rw [List.any_cons] at h
    rcases Bool.or_eq_false_iff.mp h with ⟨hp, ha⟩
    simpa [List.find?, hp] using ih ha

/-- In-place replacement at key `k` is invisible to lookups at `j ≠ k`. -/
theorem find?_map_setKey_ne (m : Metadata) (k j : String) (v : JValue)
    (h : (k == j) = false) :
    (m.map (fun p => if p.1 == k then (k, v) else p)).find? (fun p => p.1 == j) =
      m.find? (fun p => p.1 == j) := by
  induction m with
  | nil => rfl
  | cons p rest ih =>
    rw [List.map_cons]
    cases hp : (p.1 == k) with
    | true =>
      have hpj : (p.1 == j) = false := by
        have hk : p.1 = k := by simpa using hp
        rw [hk]; exact h
      rw [if_pos rfl]
      rw [List.find?_cons_of_neg _ (by simp [h]), List.find?_cons_of_neg _ (by simp [hpj])]
      exact ih
    | false =>
      rw [if_neg (by simp)]
      cases hpj : (p.1 == j) with
      | true =>
        rw [List.find?_cons_of_pos _ (by simp [hpj]), List.find?_cons_of_pos _ (by simp [hpj])]
      | false =>
        rw [List.find?_cons_of_neg _ (by simp [hpj]), List.find?_cons_of_neg _ (by simp [hpj])]
        exact ih

/-- Appending `(k, v)` is invisible to lookups at `j ≠ k`. -/
theorem find?_append_ne (m : Metadata) (k j : String) (v : JValue)
    (h : (k == j) = false) :
    (m ++ [(k, v)]).find? (fun p => p.1 == j) = m.find? (fun p => p.1 == j) := by
  induction m with
  | nil =>
    show List.find? _ [(k, v)] = _
    rw [List.find?_cons_of_neg _ (by simp [h])]
  | cons p rest ih =>
    rw [List.cons_append]
    cases hpj : (p.1 == j) with
    | true =>
      rw [List.find?_cons_of_pos _ (by simp [hpj]), List.find?_cons_of_pos _ (by simp [hpj])]
    | false =>
      rw [List.find?_cons_of_neg _ (by simp [hpj]), List.find?_cons_of_neg _ (by simp [hpj])]
      exact ih

/-- `m[k] = v` makes `k` read back `v`. -/
theorem getVal_setKey_eq (m : Metadata) (k : String) (v : JValue) :
    (Metadata.setKey m k v).getVal k = some v := by
  unfold Metadata.setKey Metadata.getVal
  cases ha : m.any (fun p => p.1 == k) with
  | true => rw [if_pos rfl, find?_map_setKey m k v ha]; rfl
  | false => rw [if_neg (by simp), find?_append_setKey m k v ha]; rfl

/-- `m[k] = v` leaves every other key unchanged. -/
theorem getVal_setKey_ne (m : Metadata) (k j : String) (v : JValue) (h : j ≠ k) :
    (Metadata.setKey m k v).getVal j = m.getVal j := by
  have hkj : (k == j) = false := by
    cases hbe : (k == j) with
    | false => rfl
    | true => exact absurd (eq_of_beq hbe).symm h
  unfold Metadata.setKey Metadata.getVal
  cases ha : m.any (fun p => p.1 == k) with
  | true => rw [if_pos rfl, find?_map_setKey_ne m k j v hkj]
  | false => rw [if_neg (by simp), find?_append_ne m k j v hkj]

/-- Reading the merge of `kwargs` into `m`: a key bound in `kwargs` reads
its (last) bound value; any other key reads as in `m`. -/
theorem getVal_applyAll (m : Metadata) (kwargs : List (String × JValue)) (j : String) :
    (Metadata.applyAll m kwargs).getVal j =
      (lookupLast kwargs j).elim (m.getVal j) some := by
  induction kwargs generalizing m with
  | nil => simp [Metadata.applyAll, lookupLast]
  | cons kv rest ih =>
    have step : Metadata.applyAll m (kv :: rest) =
        Metadata.applyAll (Metadata.setKey m kv.1 kv.2) rest := rfl
    rw [step, ih]
    cases hl : lookupLast rest j with
    | some v => simp [lookupLast, hl]
    | none =>
      by_cases hj : (kv.1 == j) = true
      · have hkj : kv.1 = j := by simpa using hj
        simp only [lookupLast, hl, hj, if_pos, Option.elim]
        rw [← hkj]
        exact getVal_setKey_eq m kv.1 kv.2
      · have hj' : (kv.1 == j) = false := by simpa using hj
        have hne : j ≠ kv.1 := fun hc => by simp [hc] at hj'
        simp only [lookupLast, hl, hj', Bool.false_eq_true, if_neg, Option.elim]
        exact getVal_setKey_ne m kv.1 j kv.2 hne

/-- Replacing the metadata of the row `findRow` answers for leaves that row
in place with the new metadata. -/
theorem findRow_updateFirstRow (store : Store) (i : String) (m' : Metadata)
    (r : DocumentRow) (h : findRow store i = some r) :
    findRow (updateFirstRow store i (fun x => { x with cmetadata := m' })) i =
      some { r with cmetadata := m' } := by
  induction store with
  | nil => simp [findRow] at h
  | cons s rest ih =>
    by_cases hs : (s.id == i) = true
    · have hr : s = r := by simpa [findRow, List.find?, hs] using h
      subst hr
      simp [updateFirstRow, hs, findRow, List.find?]
    · have hs' : (s.id == i) = false := by simpa using hs
      have h' : findRow rest i = some r := by simpa [findRow, List.find?, hs'] using h
      simpa [updateFirstRow, hs', findRow, List.find?] using ih h'

/-! ## Chunking lemmas -/

/-- Concatenating the slices recovers the character list (by strong
induction on the list's length). -/
theorem chunksPos_flatten_aux (k : Nat) :
    ∀ (n : Nat) (l : List Char), l.length ≤ n → (chunksPos k l).flatten = l := by
  intro n
  induction n with
  | zero =>
    intro l h
    have hl : l = [] := List.length_eq_zero.mp (Nat.le_zero.mp h)
    subst hl
    simp [chunksPos]
  | succ n ih =>
    intro l h
    cases l with
    | nil => simp [chunksPos]
    | cons x xs =>
      rw [chunksPos, List.flatten_cons]
      rw [ih (xs.drop k) (by simp [List.length_drop]; simp [List.length_cons] at h; omega)]
      rw [List.take_succ_cons, List.cons_append, List.take_append_drop]

/-- Concatenating the slices recovers the character list. -/
theorem chunksPos_flatten (k : Nat) (l : List Char) : (chunksPos k l).flatten = l :=
  chunksPos_flatten_aux k l.length l le_rfl

/-- Every slice except possibly the last has length exactly the chunk
size. -/
theorem chunksPos_dropLast_length_aux (k : Nat) :
    ∀ (n : Nat) (l : List Char), l.length ≤ n →
      ∀ c ∈ (chunksPos k l).dropLast, c.length = k + 1 := by
  intro n
  induction n with
  | zero =>
    intro l h c hc
    have hl : l = [] := List.length_eq_zero.mp (Nat.le_zero.mp h)
    subst hl
    simp [chunksPos] at hc
  | succ n ih =>
    intro l h c hc
    cases l with
    | nil => simp [chunksPos] at hc
    | cons x xs =>
      rw [chunksPos] at hc
      cases hrec : chunksPos k (xs.drop k) with
      | nil =>
        rw [hrec] at hc
        simp at hc
      | cons y ys =>
        rw [hrec, List.dropLast_cons₂] at hc
        rcases List.mem_cons.mp hc with hhead | htail
        · subst hhead
          have hne : xs.drop k ≠ [] := by
            intro h0
            rw [h0] at hrec
            simp [chunksPos] at hrec
          have hklt : k < xs.length := by
            by_contra hge
            push_neg at hge
            exact hne (List.drop_eq_nil_of_le hge)
          simp [List.length_take]
          omega
        · rw [← hrec] at htail
          exact ih (xs.drop k) (by simp [List.length_drop]; simp [List.length_cons] at h; omega) c htail

/-- Every slice except possibly the last has length exactly the chunk
size. -/
theorem chunksPos_dropLast_length (k : Nat) (l : List Char) :
    ∀ c ∈ (chunksPos k l).dropLast, c.length = k + 1 :=
  chunksPos_dropLast_length_aux k l.length l le_rfl

/-- Folding string concatenation over packed character lists packs their
concatenation. -/
theorem foldl_append_mk (ls : List (List Char)) (acc : List Char) :
    (ls.map String.mk).foldl (fun r s => r ++ s) (String.mk acc) =
      String.mk (acc ++ ls.flatten) := by
  induction ls generalizing acc with
  | nil => simp
  | cons a as ih =>
    rw [List.map_cons, List.foldl_cons]
    rw [show String.mk acc ++ String.mk a = String.mk (acc ++ a) from rfl]
    rw [ih (acc ++ a), List.flatten_cons, List.append_assoc]

/-- `String.join` over packed character lists is the packed
concatenation. -/
theorem join_map_mk (ls : List (List Char)) :
    String.join (ls.map String.mk) = String.mk ls.flatten := by
  have h := foldl_append_mk ls []
  simpa [String.join] using h

/-! ## Claim theorems -/

/-- C4: for every document whose state has no outgoing transition in the
bound document type, the executor's single advancement step returns the
empty list, creates no new documents (the store is untouched) and raises no
error. -/
theorem no_transition_returns_empty (dt : DocumentType) (error_state now : String)
    (uuid : Nat → String) (store : Store) (ctr : Nat) (doc : Document)
    (h : dt.get_transition doc.state = []) :
    (processSingleDocument dt error_state now uuid store ctr doc).results = [] ∧
    (processSingleDocument dt error_state now uuid store ctr doc).store = store := by
  simp [processSingleDocument, h]

/-- C4 witness: a `download` document in the scenario-A graph, which has no
transition out of `download`. -/
theorem no_transition_returns_empty_witness :
    (processSingleDocument dtDemo "error" "t0" uuidDemo [] 0 docDownload).results = [] ∧
    (processSingleDocument dtDemo "error" "t0" uuidDemo [] 0 docDownload).store = [] :=
  no_transition_returns_empty dtDemo "error" "t0" uuidDemo [] 0 docDownload rfl

/-- C2: when the processor of the first transition out of the document's
state raises, the executor returns normally with exactly one error
document: its state is the configured error-state name, its parent is the
processed document, its media type is `application/json`, its content is
the failure message, and it is persisted (the session's store grows by
exactly its row). -/
theorem failed_transition_creates_error_child (dt : DocumentType)
    (error_state now : String) (uuid : Nat → String) (store : Store) (ctr : Nat)
    (doc : Document) (transition : Transition) (rest : List Transition) (exc : PyExc)
    (ht : dt.get_transition doc.state = transition :: rest)
    (hr : transition.process_func doc = ProcResult.raised exc) :
    ∃ e : Document,
      (processSingleDocument dt error_state now uuid store ctr doc).results = [e] ∧
      e.state = error_state ∧ e.parent_id = some doc.id ∧
      e.media_type = "application/json" ∧ e.content = some exc.msg ∧
      (processSingleDocument dt error_state now uuid store ctr doc).store =
        store ++ [rowOfDoc e] := by
  refine ⟨mkErrorDocument error_state now (uuid ctr) doc transition exc,
    ?_, rfl, rfl, rfl, rfl, ?_⟩ <;>
    simp [processSingleDocument, ht, hr]

/-- C2 witness: scenario C — the `link → download` processor raises
`"boom"` on an empty store. -/
theorem failed_transition_creates_error_child_witness :
    ∃ e : Document,
      (processSingleDocument dtBoom "error" "2024-01-01T00:00:00" uuidDemo [] 0
        docLink).results = [e] ∧
      e.state = "error" ∧ e.parent_id = some docLink.id ∧
      e.media_type = "application/json" ∧ e.content = some "boom" ∧
      (processSingleDocument dtBoom "error" "2024-01-01T00:00:00" uuidDemo [] 0
        docLink).store = [] ++ [rowOfDoc e] :=
  failed_transition_creates_error_child dtBoom "error" "2024-01-01T00:00:00" uuidDemo [] 0
    docLink trBoom [] ⟨"boom", "ValueError"⟩ rfl rfl

/-- C1: the error document the `doc_new` executor builds carries all seven
reserved metadata keys and its `timestamp` holds the failure time; the
legacy `docstate` executor's error metadata has no `process_function` key
and stores the processor's name under `timestamp` — the claim fails on the
legacy code. -/
theorem error_document_reserved_keys (error_state now errId : String) (doc : Document)
    (transition : Transition) (exc : PyExc) :
    reservedErrorKeys.all
        (fun k => (mkErrorDocument error_state now errId doc transition exc).metadata.hasKey k)
      = true ∧
    (mkErrorDocument error_state now errId doc transition exc).metadata.getVal "timestamp" =
      some (JValue.str now) ∧
    (legacyErrorMetadata doc transition exc).hasKey "process_function" = false ∧
    (legacyErrorMetadata doc transition exc).getVal "timestamp" =
      some (JValue.str transition.func_name) :=
  ⟨rfl, rfl, rfl, rfl⟩

/-- C8: `get` with a truthy id ignores `include_content` — the
`include_content=false` call returns the document with its full content
payload, against the claim. -/
theorem get_ignores_include_content_on_id_lookup :
    (∀ (store : Store) (i : String) (b : Bool), get_byId store i b = get_byId store i true) ∧
    (get_byId storeAbc "d1" false).map Document.content = some (some "abc") :=
  ⟨fun _ _ _ => rfl, rfl⟩

/-- C9: `add_children` filters the input only against the pre-existing
children, so an id occurring twice in one call is appended twice — against
the claim — while folding the legacy per-item `add_child` over the same
input deduplicates. -/
theorem add_children_keeps_input_duplicates :
    (add_children doc9 ["a", "a"]).children = ["a", "a"] ∧
    (["a", "a"].foldl add_child doc9).children = ["a"] ∧
    ¬ (add_children doc9 ["a", "a"]).children.Nodup := by
  refine ⟨rfl, rfl, ?_⟩
  decide

/-- C5: `update` on a stored document merges the given keys into the
stored metadata with per-key overwrite, preserves every unmentioned
metadata key, leaves `state`, `content`, `media_type`, `url` and
`parent_id` unchanged (both in the returned snapshot and in the stored
row), and only the metadata of the stored row changes. -/
theorem update_merges_metadata_and_preserves_fields (store : Store) (i : String)
    (r : DocumentRow) (kwargs : List (String × JValue))
    (h : findRow store i = some r) :
    ∃ (store' : Store) (d : Document),
      update store (UpdateArg.byId i) kwargs = (store', Except.ok d) ∧
      (∀ k v, lookupLast kwargs k = some v → d.metadata.getVal k = some v) ∧
      (∀ k, lookupLast kwargs k = none → d.metadata.getVal k = r.cmetadata.getVal k) ∧
      d.state = r.state ∧ d.content = r.content ∧ d.media_type = r.media_type ∧
      d.url = r.url ∧ d.parent_id = r.parent_id ∧
      findRow store' i = some { r with cmetadata := r.cmetadata.applyAll kwargs } := by
  refine ⟨updateFirstRow store i
      (fun x => { x with cmetadata := Metadata.applyAll r.cmetadata kwargs }),
    convertModelToDocument
      (updateFirstRow store i
        (fun x => { x with cmetadata := Metadata.applyAll r.cmetadata kwargs }))
      { r with cmetadata := Metadata.applyAll r.cmetadata kwargs },
    ?_, ?_, ?_, rfl, rfl, rfl, rfl, rfl, ?_⟩
  · simp [update, UpdateArg.docId, h]
  · intro k v hk
    show (Metadata.applyAll r.cmetadata kwargs).getVal k = some v
    rw [getVal_applyAll, hk]
    rfl
  · intro k hk
    show (Metadata.applyAll r.cmetadata kwargs).getVal k = r.cmetadata.getVal k
    rw [getVal_applyAll, hk]
    rfl
  · exact findRow_updateFirstRow store i _ r h

/-- C5 witness: merging `{b: 2}` into a stored document whose metadata is
`{a: "1"}`. -/
theorem update_merges_metadata_and_preserves_fields_witness :
    ∃ (store' : Store) (d : Document),
      update storeMeta (UpdateArg.byId "d1") [("b", JValue.num 2)] =
        (store', Except.ok d) ∧
      (∀ k v, lookupLast [("b", JValue.num 2)] k = some v →
        d.metadata.getVal k = some v) ∧
      (∀ k, lookupLast [("b", JValue.num 2)] k = none →
        d.metadata.getVal k = rowMeta.cmetadata.getVal k) ∧
      d.state = rowMeta.state ∧ d.content = rowMeta.content ∧
      d.media_type = rowMeta.media_type ∧ d.url = rowMeta.url ∧
      d.parent_id = rowMeta.parent_id ∧
      findRow store' "d1" =
        some { rowMeta with
                 cmetadata := rowMeta.cmetadata.applyAll [("b", JValue.num 2)] } :=
  update_merges_metadata_and_preserves_fields storeMeta "d1" rowMeta
    [("b", JValue.num 2)] rfl

/-- C6: `update` answers `NotFound` exactly when the referenced id is
absent, answers `Mismatch` exactly when a full `Document` was supplied
whose `state`, `content` or `media_type` differs from the stored row, and
every failure leaves the store unchanged. -/
theorem update_failure_conditions (store : Store) (arg : UpdateArg)
    (kwargs : List (String × JValue)) :
    ((update store arg kwargs).2 = Except.error StoreErr.NotFound ↔
      findRow store arg.docId = none) ∧
    ((update store arg kwargs).2 = Except.error StoreErr.Mismatch ↔
      ∃ d r, arg = UpdateArg.byDoc d ∧ findRow store d.id = some r ∧
        (d.state ≠ r.state ∨ d.content ≠ r.content ∨ d.media_type ≠ r.media_type)) ∧
    (∀ e, (update store arg kwargs).2 = Except.error e →
      (update store arg kwargs).1 = store) := by
  cases hf : findRow store arg.docId with
  | none =>
    refine ⟨by simp [update, hf], ?_, ?_⟩
    · constructor
      · intro hm
        simp [update, hf] at hm
      · rintro ⟨d, r, rfl, hr, -⟩
        rw [show (UpdateArg.byDoc d).docId = d.id from rfl] at hf
        rw [hf] at hr
        exact absurd hr (by simp)
    · intro e _
      simp [update, hf]
  | some r0 =>
    cases arg with
    | byId i =>
      refine ⟨?_, ?_, ?_⟩
      · simp [update, hf]
      · simp [update, hf]
      · intro e he
        simp [update, hf] at he
    | byDoc d =>
      cases hm : (d.state != r0.state || d.content != r0.content ||
          d.media_type != r0.media_type) with
      | true =>
        refine ⟨by simp [update, hf, hm], ?_, ?_⟩
        · constructor
          · intro _
            refine ⟨d, r0, rfl, hf, ?_⟩
            have := hm
            simp only [Bool.or_eq_true, bne_iff_ne] at this
            tauto
          · intro _
            simp [update, hf, hm]
        · intro e _
          simp [update, hf, hm]
      | false =>
        have hparts := Bool.or_eq_false_iff.mp hm
        have hparts1 := Bool.or_eq_false_iff.mp hparts.1
        have hst : d.state = r0.state := by
          have := hparts1.1
          simpa [bne] using this
        have hct : d.content = r0.content := by
          have := hparts1.2
          simpa [bne] using this
        have hmt : d.media_type = r0.media_type := by
          have := hparts.2
          simpa [bne] using this
        refine ⟨by simp [update, hf, hm], ?_, ?_⟩
        · constructor
          · intro hc
            simp [update, hf, hm] at hc
          · rintro ⟨d', r', hd, hr', hdiff⟩
            injection hd with hdd
            subst hdd
            rw [show UpdateArg.docId (UpdateArg.byDoc d) = d.id from rfl] at hf
            rw [hf] at hr'
            injection hr' with hrr
            subst hrr
            rcases hdiff with h1 | h1 | h1
            · exact absurd hst h1
            · exact absurd hct h1
            · exact absurd hmt h1
        · intro e he
          simp [update, hf, hm] at he

/-- The names of the graph's final states are exactly the names of graph
states with no outgoing transition. -/
theorem mem_final_map_name (dt : DocumentType) (name : String) :
    name ∈ dt.final.map DocumentState.name ↔
      (name ∈ dt.states.map DocumentState.name ∧
        ∀ t ∈ dt.transitions, t.from_state.name ≠ name) := by
  unfold DocumentType.final
  constructor
  · intro h
    obtain ⟨s, hs, rfl⟩ := List.mem_map.mp h
    obtain ⟨hsS, hp⟩ := List.mem_filter.mp hs
    refine ⟨List.mem_map.mpr ⟨s, hsS, rfl⟩, ?_⟩
    intro t ht heq
    have hfalse : dt.transitions.any (fun t => t.from_state.name == s.name) = false := by
      simpa using hp
    exact List.any_eq_false.mp hfalse t ht (by simp [heq])
  · rintro ⟨hin, hall⟩
    obtain ⟨s, hsS, rfl⟩ := List.mem_map.mp hin
    refine List.mem_map.mpr ⟨s, List.mem_filter.mpr ⟨hsS, ?_⟩, rfl⟩
    have hfalse : dt.transitions.any (fun t => t.from_state.name == s.name) = false :=
      List.any_eq_false.mpr (fun t ht => by simpa using hall t ht)
    simp [hfalse]

/-- Membership in `final_state_names`: a graph final state's name or the
configured error state. -/
theorem mem_final_state_names (dt : DocumentType) (es name : String) :
    name ∈ final_state_names (some dt) es ↔
      (name ∈ dt.final.map DocumentState.name ∨ name = es) := by
  simp only [final_state_names]
  by_cases h : es ∈ dt.final.map DocumentState.name
  · rw [if_pos h]
    constructor
    · exact fun hm => Or.inl hm
    · rintro (hm | rfl)
      · exact hm
      · exact h
  · rw [if_neg h, List.mem_append, List.mem_singleton]

/-- The engine's `final_state_names` test coincides with the spec's
terminal-set membership. -/
theorem contains_final_eq_isTerminalSpec (dt : DocumentType) (es name : String) :
    ((final_state_names (some dt) es).contains name) = isTerminalSpec dt es name := by
  rw [Bool.eq_iff_iff]
  unfold isTerminalSpec
  rw [show ((final_state_names (some dt) es).contains name = true) ↔
      name ∈ final_state_names (some dt) es by
    simp [List.contains]]
  rw [mem_final_state_names, mem_final_map_name]
  simp [List.any_eq_true, List.all_eq_true, List.mem_map, bne_iff_ne]

/-- C3: whenever `finish` terminates, the list it returns is exactly the
documents of the final store whose state lies in the terminal set — the
graph states with no outgoing transition united with the configured
error-state name — each converted with its children. -/
theorem finish_returns_terminal_store_documents (dt : DocumentType)
    (error_state now : String) (uuid : Nat → String) (fuel : Nat) (store : Store)
    (docs : List Document) (s' : Store) (res : List Document)
    (h : finish dt error_state now uuid fuel store docs = some (s', res)) :
    res = (s'.filter (fun r => isTerminalSpec dt error_state r.state)).map
      (convertModelToDocument s') := by
  simp only [finish] at h
  cases hl : finishLoop dt error_state now uuid fuel (docs.foldl ensureAdded store) 0 docs with
  | none =>
    rw [hl] at h
    exact absurd h (by simp)
  | some p =>
    rw [hl] at h
    obtain ⟨s0, ctr⟩ := p
    simp only [Option.some.injEq, Prod.mk.injEq] at h
    obtain ⟨hs, hres⟩ := h
    subst hs
    rw [← hres]
    congr 1
    apply List.filter_congr
    intro r _
    exact contains_final_eq_isTerminalSpec dt error_state r.state

/-- C3 witness: scenario A run to completion — one `link` document through
`link → download`; the returned list is the terminal filter of the final
store. -/
theorem finish_returns_terminal_store_documents_witness :
    demoFinishResult =
      (demoFinishStore.filter (fun r => isTerminalSpec dtDemo "error" r.state)).map
        (convertModelToDocument demoFinishStore) :=
  finish_returns_terminal_store_documents dtDemo "error" "t0" uuidDemo 5 [] [docLink]
    demoFinishStore demoFinishResult rfl

/-- C7: for chunk size `k ≥ 1`, `stream_content` fails with `NotFound`
exactly on an absent id; on a stored document it yields chunks whose
concatenation is the stored content (`NULL` read as empty), every chunk
except possibly the last of length exactly `k`, and a single empty chunk
when the content is empty. -/
theorem stream_content_chunks (store : Store) (i : String) (k : Nat) (hk : 1 ≤ k) :
    (findRow store i = none → stream_content store i k = Except.error StoreErr.NotFound) ∧
    ∀ r, findRow store i = some r →
      ∃ cs, stream_content store i k = Except.ok cs ∧
        String.join cs = r.content.getD "" ∧
        (∀ c ∈ cs.dropLast, c.length = k) ∧
        (r.content.getD "" = "" → cs = [""]) := by
  constructor
  · intro h
    simp [stream_content, h]
  · intro r hr
    obtain ⟨k', rfl⟩ : ∃ k', k = k' + 1 := ⟨k - 1, by omega⟩
    cases hc : r.content with
    | none =>
      exact ⟨[""], by simp [stream_content, hr, hc], rfl, by simp, fun _ => rfl⟩
    | some c =>
      by_cases hce : c = ""
      · subst hce
        exact ⟨[""], by simp [stream_content, hr, hc], rfl, by simp, fun _ => rfl⟩
      · refine ⟨chunks c (k' + 1), by simp [stream_content, hr, hc, hce], ?_, ?_, ?_⟩
        · show String.join ((chunksPos k' c.toList).map String.mk) = (some c).getD ""
          rw [join_map_mk, chunksPos_flatten]
          rfl
        · intro ch hch
          simp only [chunks, ← List.map_dropLast] at hch
          obtain ⟨l', hl', rfl⟩ := List.mem_map.mp hch
          exact chunksPos_dropLast_length k' c.toList l' hl'
        · intro habs
          exact absurd habs hce

/-- C7 witness: streaming a stored five-character document in chunks of
two. -/
theorem stream_content_chunks_witness :
    (findRow storeStream "s1" = none →
      stream_content storeStream "s1" 2 = Except.error StoreErr.NotFound) ∧
    ∀ r, findRow storeStream "s1" = some r →
      ∃ cs, stream_content storeStream "s1" 2 = Except.ok cs ∧
        String.join cs = r.content.getD "" ∧
        (∀ c ∈ cs.dropLast, c.length = 2) ∧
        (r.content.getD "" = "" → cs = [""]) :=
  stream_content_chunks storeStream "s1" 2 (by decide)

/-- C10: `get` with `None` or the empty string as id takes the return-all
branch: it yields the list of every stored document (no failure, no
`none`), each converted with the ids of its children — the documents whose
`parent_id` points at it. -/
theorem get_absent_id_returns_every_document (store : Store) :
    get store none = get store (some "") ∧
    get store none = GetResult.many (store.map (convertModelToDocument store)) ∧
    ∀ r ∈ store, (convertModelToDocument store r).children =
      (store.filter (fun x => x.parent_id == some r.id)).map DocumentRow.id :=
  ⟨rfl, rfl, fun _ _ => rfl⟩
